import Mathlib

/-!
Verification of the CelesteMods difficulty-hierarchy normalizer and the
mod/map creation helpers.

The definitions below are a shallow embedding of the TypeScript routines in
the maps-mods-publishers router: `getDifficultyArrays` (submission parser),
`getSortedDifficultyNames` (difficulty-tree reconstructor),
`handleNonNormalMods` (map difficulty validator), `privilegedUser`,
`getCanonicalDifficultyID`, `getMapIdCreationObject`, and the two
GameBanana identity lookups.  JavaScript `undefined`/`null` optionality is
modelled with `Option`, thrown strings with `Except` over explicit error
inductives, and numeric DB columns with `Int`/`Nat`.
-/

namespace CelesteMods

/-- A `string | string[]` element.  Both the submission shape consumed by
`getDifficultyArrays` and the display shape produced by
`getSortedDifficultyNames` are lists of these. -/
inductive StrOrStrings where
  | str (s : String)
  | arr (l : List String)
deriving Repr, DecidableEq

/-- One element of the parser's flat `difficultyNamesArray` output
(`{ name: string }`). -/
structure NameRec where
  name : String
deriving Repr, DecidableEq

/-- `createChildDifficultyForMod` from `types/internal`: the nested child
creation record `{ name, order }`. -/
structure createChildDifficultyForMod where
  name : String
  order : Nat
deriving Repr, DecidableEq

/-- `createParentDifficultyForMod` from `types/internal`: the parent creation
record `{ name, order, other_difficulties?: { create: [...] } }`.  The
`create` wrapper object is modelled directly as the list it wraps. -/
structure createParentDifficultyForMod where
  name : String
  order : Nat
  other_difficulties : Option (List createChildDifficultyForMod) := none
deriving Repr, DecidableEq

/-- The child records produced for one inner array `l` of the submission:
the JS loop runs `childDifficultyIndex` from `1` to `l.length - 1` and emits
`{ name: l[childDifficultyIndex], order: childDifficultyIndex }`. -/
def childRecordsGo (i : Nat) : List String → List createChildDifficultyForMod
  | [] => []
  | n :: rest => { name := n, order := i } :: childRecordsGo (i + 1) rest

def childRecords (l : List String) : List createChildDifficultyForMod :=
  childRecordsGo 1 (l.drop 1)

/-- Loop body of `getDifficultyArrays`, with `i` the current 0-based
`parentDifficultyIndex`.  A `string` element emits one parent record and one
flat name; an array element first emits its child records and their flat
names, then the parent record and the parent's flat name (element 0 of the
inner array; JS indexing of an empty array yields `undefined`, rendered here
as `""` — no theorem below distinguishes the two).  The returned triple is
`(difficultyNamesArray, difficultiesDataArray, modHasSubDifficultiesBool)`. -/
def getDifficultyArraysGo (i : Nat) :
    List StrOrStrings → List NameRec × List createParentDifficultyForMod × Bool
  | [] => ([], [], false)
  | .str s :: rest =>
    let (names, recs, flag) := getDifficultyArraysGo (i + 1) rest
    ({ name := s } :: names, { name := s, order := i + 1 } :: recs, flag)
  | .arr l :: rest =>
    let (names, recs, _flag) := getDifficultyArraysGo (i + 1) rest
    ((l.drop 1).map (fun n => { name := n }) ++ { name := l.headD "" } :: names,
     { name := l.headD "", order := i + 1, other_difficulties := some (childRecords l) } :: recs,
     true)

/-- `getDifficultyArrays` (§4.1): parse a submitted
`(string | string[])[]` into the flat name list, the nested creation list
and the has-sub-difficulties flag.  The source wraps its body in
`try/catch`, but no statement in it can throw, so the embedding is a total
function. -/
def getDifficultyArrays (difficultyNames : List StrOrStrings) :
    List NameRec × List createParentDifficultyForMod × Bool :=
  getDifficultyArraysGo 0 difficultyNames

/-- A row of the `difficulties` table as consumed by
`getSortedDifficultyNames`: `id`, `name`, `order`, nullable
`parentDifficultyID`. -/
structure Difficulty where
  id : Nat
  name : String
  order : Int
  parentDifficultyID : Option Nat
deriving Repr, DecidableEq

/-- The reconstructor's sibling-grouping step for one sub-difficulty row:
append it to the first existing group whose head has the same
`parentDifficultyID`, or start a new group at the end of the list. -/
def addToSiblings : List (List Difficulty) → Difficulty → List (List Difficulty)
  | [], d => [[d]]
  | g :: gs, d =>
    match g.head? with
    | some h =>
      if h.parentDifficultyID == d.parentDifficultyID then (g ++ [d]) :: gs
      else g :: addToSiblings gs d
    | none => g :: addToSiblings gs d

/-- `subDifficultiesArray` of `getSortedDifficultyNames`: the rows with a
non-null `parentDifficultyID`, grouped into sibling arrays in encounter
order. -/
def siblingGroups (difficulties : List Difficulty) : List (List Difficulty) :=
  (difficulties.filter (fun d => !(d.parentDifficultyID == none))).foldl addToSiblings []

/-- The inner child loop of `getSortedDifficultyNames`: for each
`siblingOrder` from 1 to the group size, push the name of the first sibling
with that order; a missing order slot pushes nothing. -/
def buildChildren (sibs : List Difficulty) : List String :=
  (List.range sibs.length).filterMap fun (i : Nat) =>
    (sibs.find? (fun s => s.order == (i : Int) + 1)).map (fun s => s.name)

/-- The source's `siblingArray[0].parentDifficultyID === parentId`
comparison: `parentId` is the id of the `found` parent row, or `NaN` when no
row matched the current order, and `NaN`/`null` equal nothing under
JavaScript `===`. -/
def groupMatches (found : Option Difficulty) (g : List Difficulty) : Bool :=
  match g.head? with
  | some h =>
    match h.parentDifficultyID, found with
    | some pid, some p => pid == p.id
    | _, _ => false
  | none => false

/-- One iteration of the reconstructor's parent loop, for the 0-based index
`i` (so `parentOrder = i + 1`).  `found` is the first parent row with that
order; when none exists, `parentName` stays `""` exactly as in the source. -/
def buildEntry (parents : List Difficulty) (groups : List (List Difficulty)) (i : Nat) :
    StrOrStrings :=
  let found := parents.find? (fun d => d.order == (i : Int) + 1)
  let parentName := (found.map (fun d => d.name)).getD ""
  match groups.find? (groupMatches found) with
  | some g => .arr (parentName :: buildChildren g)
  | none => .str parentName

/-- The reconstructor's `formattedArray` before the continuity check. -/
def buildEntries (parents : List Difficulty) (groups : List (List Difficulty)) :
    List StrOrStrings :=
  (List.range parents.length).map (buildEntry parents groups)

/-- The two messages thrown by the final continuity check of
`getSortedDifficultyNames` ("Parent difficulty orders for mod ... are not
continuous" / "Child difficulty orders for parent difficulty ... in mod ...
are not continuous"); the spec groups both under
`NonContiguousOrderError`. -/
inductive SortError where
  | parentOrdersNotContinuous (modID : Nat)
  | childOrdersNotContinuous (parentName : String) (modID : Nat)
deriving Repr, DecidableEq

/-- The final `forEach` check of `getSortedDifficultyNames`: throw at the
first `""` string entry, or at the first array entry containing a `""`
element (the child message cites element 0 of the offending array). -/
def checkEntries (modID : Nat) : List StrOrStrings → Except SortError Unit
  | [] => .ok ()
  | .str s :: rest =>
    if s == "" then .error (.parentOrdersNotContinuous modID)
    else checkEntries modID rest
  | .arr l :: rest =>
    if l.contains "" then .error (.childOrdersNotContinuous (l.headD "") modID)
    else checkEntries modID rest

/-- `getSortedDifficultyNames` (§4.2): reconstruct the ordered, possibly
nested display shape from stored difficulty rows, throwing when the final
continuity check finds an empty name. -/
def getSortedDifficultyNames (difficulties : List Difficulty) (modID : Nat) :
    Except SortError (List StrOrStrings) :=
  let parentDifficultyArray := difficulties.filter (fun d => d.parentDifficultyID == none)
  let formattedArray := buildEntries parentDifficultyArray (siblingGroups difficulties)
  match checkEntries modID formattedArray with
  | .ok _ => .ok formattedArray
  | .error e => .error e

example :
    getDifficultyArrays [.str "Easy", .arr ["Medium", "Medium+"], .str "Hard"] =
      ([⟨"Easy"⟩, ⟨"Medium+"⟩, ⟨"Medium"⟩, ⟨"Hard"⟩],
       [⟨"Easy", 1, none⟩, ⟨"Medium", 2, some [⟨"Medium+", 1⟩]⟩, ⟨"Hard", 3, none⟩],
       true) := by decide

example :
    getSortedDifficultyNames
      [⟨1, "Easy", 1, none⟩, ⟨2, "Medium", 2, none⟩, ⟨3, "Hard", 3, none⟩,
       ⟨4, "Medium+", 1, some 2⟩] 1 =
      .ok [.str "Easy", .arr ["Medium", "Medium+"], .str "Hard"] := rfl

example :
    getSortedDifficultyNames
      [⟨1, "A", 1, none⟩, ⟨2, "B", 3, none⟩, ⟨3, "C", 4, none⟩] 9 =
      .error (.parentOrdersNotContinuous 9) := rfl

example :
    getSortedDifficultyNames
      [⟨1, "P", 1, none⟩, ⟨2, "A", 1, some 1⟩, ⟨3, "B", 3, some 1⟩] 7 =
      .ok [.arr ["P", "A"]] := rfl

/-! ### Derived descriptions of the parser output -/

/-- Number of flat names one submission element contributes: one for a bare
string; for an inner array, one per child plus one for the parent (an empty
inner array still contributes its single `undefined` parent name). -/
def flatNameCount : StrOrStrings → Nat
  | .str _ => 1
  | .arr l => l.length - 1 + 1

def StrOrStrings.isArr : StrOrStrings → Bool
  | .str _ => false
  | .arr _ => true

/-- The parent creation record the parser emits for one submission element
at 1-based position `o`. -/
def recFor : StrOrStrings → Nat → createParentDifficultyForMod
  | .str s, o => { name := s, order := o }
  | .arr l, o => { name := l.headD "", order := o, other_difficulties := some (childRecords l) }

theorem childRecordsGo_getElem? (l : List String) :
    ∀ i j, (childRecordsGo i l)[j]? =
      (l[j]?).map fun n => ({ name := n, order := i + j } : createChildDifficultyForMod) := by
  induction l with
  | nil => intro i j; simp [childRecordsGo]
  | cons n rest ih =>
    intro i j
    cases j with
    | zero => simp [childRecordsGo]
    | succ j =>
      simp only [childRecordsGo, List.getElem?_cons_succ, ih (i + 1) j]
      cases rest[j]? with
      | none => rfl
      | some m => simp [Nat.add_assoc, Nat.add_comm 1 j]

theorem childRecordsGo_map_name (t : List String) :
    ∀ i, (childRecordsGo i t).map (fun c => c.name) = t := by
  induction t with
  | nil => intro i; rfl
  | cons n rest ih => intro i; simp [childRecordsGo, ih (i + 1)]

theorem childRecords_map_name (l : List String) :
    (childRecords l).map (fun c => c.name) = l.drop 1 :=
  childRecordsGo_map_name (l.drop 1) 1

theorem childRecords_length (l : List String) :
    (childRecords l).length = l.length - 1 := by
  have := congrArg List.length (childRecords_map_name l)
  simpa using this

theorem getDifficultyArraysGo_recs_getElem? (ns : List StrOrStrings) :
    ∀ i k, ((getDifficultyArraysGo i ns).2.1)[k]? =
      (ns[k]?).map fun e => recFor e (i + k + 1) := by
  induction ns with
  | nil => intro i k; simp [getDifficultyArraysGo]
  | cons e rest ih =>
    intro i k
    cases k with
    | zero => cases e <;> simp [getDifficultyArraysGo, recFor]
    | succ k =>
      have h := ih (i + 1) k
      have harith : i + 1 + k = i + (k + 1) := by omega
      cases e <;>
        simp only [getDifficultyArraysGo, List.getElem?_cons_succ, h, harith]

theorem getDifficultyArraysGo_recs_length (ns : List StrOrStrings) :
    ∀ i, ((getDifficultyArraysGo i ns).2.1).length = ns.length := by
  induction ns with
  | nil => intro i; rfl
  | cons e rest ih => intro i; cases e <;> simp [getDifficultyArraysGo, ih (i + 1)]

theorem getDifficultyArraysGo_names_length (ns : List StrOrStrings) :
    ∀ i, ((getDifficultyArraysGo i ns).1).length = (ns.map flatNameCount).sum := by
  induction ns with
  | nil => intro i; rfl
  | cons e rest ih =>
    intro i
    cases e <;> simp [getDifficultyArraysGo, ih (i + 1), flatNameCount] <;> omega

theorem getDifficultyArraysGo_flag (ns : List StrOrStrings) :
    ∀ i, (getDifficultyArraysGo i ns).2.2 = ns.any StrOrStrings.isArr := by
  induction ns with
  | nil => intro i; rfl
  | cons e rest ih =>
    intro i
    cases e <;> simp [getDifficultyArraysGo, ih (i + 1), StrOrStrings.isArr]

/-! ### Persistence model -/

/-- Modelled from the spec: the persistence store (§6) is not part of the
router source; it "must support creating a mod together with a nested tree
of difficulty rows in one atomic unit of work".  Child creation records of
one parent become rows carrying that parent's id in `parentDifficultyID`,
with fresh sequential ids. -/
def persistChildren (parentID nextID : Nat) :
    List createChildDifficultyForMod → List Difficulty
  | [] => []
  | c :: rest =>
    ⟨nextID, c.name, (c.order : Int), some parentID⟩ :: persistChildren parentID (nextID + 1) rest

/-- The children of one parent creation record (the absent
`other_difficulties` field reads as no children). -/
def kidsOf (r : createParentDifficultyForMod) : List createChildDifficultyForMod :=
  r.other_difficulties.getD []

/-- Modelled from the spec: flat rows produced for a nested creation list,
parent-major, with fresh distinct ids starting at `nextID`; parents carry
`parentDifficultyID = null`. -/
def persistGo (nextID : Nat) : List createParentDifficultyForMod → List Difficulty
  | [] => []
  | r :: rest =>
    ⟨nextID, r.name, (r.order : Int), none⟩
      :: (persistChildren nextID (nextID + 1) (kidsOf r)
          ++ persistGo (nextID + 1 + (kidsOf r).length) rest)

/-- Modelled from the spec: persist a §4.1 nested creation list as flat
difficulty rows (§6), ids starting at 1. -/
def persistDifficulties (recs : List createParentDifficultyForMod) : List Difficulty :=
  persistGo 1 recs

/-- The parent rows of `persistGo`, in order. -/
def parentRowsGo (nextID : Nat) : List createParentDifficultyForMod → List Difficulty
  | [] => []
  | r :: rest =>
    ⟨nextID, r.name, (r.order : Int), none⟩ :: parentRowsGo (nextID + 1 + (kidsOf r).length) rest

/-- The ids `persistGo` assigns to parents, in order. -/
def parentIds (nextID : Nat) : List createParentDifficultyForMod → List Nat
  | [] => []
  | r :: rest => nextID :: parentIds (nextID + 1 + (kidsOf r).length) rest

/-- The nonempty sibling-row blocks of `persistGo`, in parent order. -/
def childBlocks (nextID : Nat) : List createParentDifficultyForMod → List (List Difficulty)
  | [] => []
  | r :: rest =>
    if (kidsOf r).isEmpty then childBlocks (nextID + 1 + (kidsOf r).length) rest
    else persistChildren nextID (nextID + 1) (kidsOf r)
        :: childBlocks (nextID + 1 + (kidsOf r).length) rest

theorem persistChildren_mem_pid {cs : List createChildDifficultyForMod} :
    ∀ {pid nid d}, d ∈ persistChildren pid nid cs → d.parentDifficultyID = some pid := by
  induction cs with
  | nil => intro pid nid d h; simp [persistChildren] at h
  | cons c rest ih =>
    intro pid nid d h
    simp only [persistChildren, List.mem_cons] at h
    rcases h with h | h
    · simp [h]
    · exact ih h

theorem persistChildren_filter_parents (cs : List createChildDifficultyForMod) :
    ∀ pid nid,
      (persistChildren pid nid cs).filter (fun d => d.parentDifficultyID == none) = [] := by
  induction cs with
  | nil => intro pid nid; rfl
  | cons c rest ih => intro pid nid; simp [persistChildren, List.filter, ih]

theorem persistChildren_filter_children (cs : List createChildDifficultyForMod) :
    ∀ pid nid,
      (persistChildren pid nid cs).filter (fun d => !(d.parentDifficultyID == none)) =
        persistChildren pid nid cs := by
  induction cs with
  | nil => intro pid nid; rfl
  | cons c rest ih => intro pid nid; simp [persistChildren, List.filter, ih]

theorem persist_filter_parents (recs : List createParentDifficultyForMod) :
    ∀ n, (persistGo n recs).filter (fun d => d.parentDifficultyID == none) =
      parentRowsGo n recs := by
  induction recs with
  | nil => intro n; rfl
  | cons r rest ih =>
    intro n
    simp [persistGo, parentRowsGo, List.filter_append, persistChildren_filter_parents,
      ih (n + 1 + (kidsOf r).length)]

theorem persist_filter_children (recs : List createParentDifficultyForMod) :
    ∀ n, (persistGo n recs).filter (fun d => !(d.parentDifficultyID == none)) =
      (childBlocks n recs).flatten := by
  induction recs with
  | nil => intro n; rfl
  | cons r rest ih =>
    intro n
    by_cases hk : (kidsOf r).isEmpty
    · have he : kidsOf r = [] := List.isEmpty_iff.mp hk
      simp [persistGo, childBlocks, hk, he, persistChildren, List.filter, ih (n + 1)]
    · simp [persistGo, childBlocks, hk, List.filter_append,
        persistChildren_filter_children, ih (n + 1 + (kidsOf r).length)]

theorem persistChildren_head? (pid nid : Nat) (c : createChildDifficultyForMod)
    (cs : List createChildDifficultyForMod) :
    (persistChildren pid nid (c :: cs)).head? =
      some ⟨nid, c.name, (c.order : Int), some pid⟩ := rfl

theorem persistChildren_ne_nil (pid nid : Nat) {cs : List createChildDifficultyForMod}
    (h : cs ≠ []) : persistChildren pid nid cs ≠ [] := by
  cases cs with
  | nil => exact absurd rfl h
  | cons c cs => simp [persistChildren]

/-! ### How `addToSiblings` folds over parent-major row blocks -/

theorem addToSiblings_append (d : Difficulty) :
    ∀ gs : List (List Difficulty),
      (∀ g ∈ gs, ∀ hd, g.head? = some hd →
        hd.parentDifficultyID ≠ d.parentDifficultyID) →
      addToSiblings gs d = gs ++ [[d]] := by
  intro gs
  induction gs with
  | nil => intro _; rfl
  | cons g gs ih =>
    intro h
    have hrec := ih fun g' hm => h g' (List.mem_cons_of_mem _ hm)
    cases hg : g.head? with
    | none => simp [addToSiblings, hg, hrec]
    | some hd =>
      have hne := h g (List.mem_cons_self g gs) hd hg
      simp [addToSiblings, hg, beq_eq_false_iff_ne.mpr hne, hrec]

theorem addToSiblings_last (d : Difficulty) (cur : List Difficulty) (hd0 : Difficulty)
    (hcur : cur.head? = some hd0) (hpid : hd0.parentDifficultyID = d.parentDifficultyID) :
    ∀ gs : List (List Difficulty),
      (∀ g ∈ gs, ∀ hd, g.head? = some hd →
        hd.parentDifficultyID ≠ d.parentDifficultyID) →
      addToSiblings (gs ++ [cur]) d = gs ++ [cur ++ [d]] := by
  intro gs
  induction gs with
  | nil =>
    intro _
    simp [addToSiblings, hcur, hpid]
  | cons g gs ih =>
    intro h
    have hrec := ih fun g' hm => h g' (List.mem_cons_of_mem _ hm)
    cases hg : g.head? with
    | none => simpa [addToSiblings, hg] using hrec
    | some hd =>
      have hne := h g (List.mem_cons_self g gs) hd hg
      simpa [addToSiblings, hg, beq_eq_false_iff_ne.mpr hne] using hrec

theorem foldl_addToSiblings_run (p : Nat) :
    ∀ (rest : List Difficulty) (gs : List (List Difficulty)) (cur : List Difficulty)
      (hd0 : Difficulty),
      (∀ g ∈ gs, ∀ hd, g.head? = some hd → hd.parentDifficultyID ≠ some p) →
      cur.head? = some hd0 → hd0.parentDifficultyID = some p →
      (∀ d ∈ rest, d.parentDifficultyID = some p) →
      List.foldl addToSiblings (gs ++ [cur]) rest = gs ++ [cur ++ rest] := by
  intro rest
  induction rest with
  | nil => intro gs cur hd0 _ _ _ _; simp
  | cons d rest ih =>
    intro gs cur hd0 hgs hcur hpid hrest
    have hd : d.parentDifficultyID = some p := hrest d (List.mem_cons_self d rest)
    have hstep : addToSiblings (gs ++ [cur]) d = gs ++ [cur ++ [d]] := by
      refine addToSiblings_last d cur hd0 hcur ?_ gs ?_
      · rw [hpid, hd]
      · intro g hm hd' hh
        rw [hd]
        exact hgs g hm hd' hh
    have hcur' : (cur ++ [d]).head? = some hd0 := by
      rw [List.head?_append, hcur]; rfl
    calc List.foldl addToSiblings (gs ++ [cur]) (d :: rest)
        = List.foldl addToSiblings (gs ++ [cur ++ [d]]) rest := by
          rw [List.foldl_cons, hstep]
      _ = gs ++ [(cur ++ [d]) ++ rest] := by
          exact ih gs (cur ++ [d]) hd0 hgs hcur' hpid
            (fun d' hm => hrest d' (List.mem_cons_of_mem _ hm))
      _ = gs ++ [cur ++ (d :: rest)] := by simp

theorem foldl_block (p : Nat) (b : List Difficulty)
    (hb : ∀ d ∈ b, d.parentDifficultyID = some p) (hne : b ≠ [])
    (gs : List (List Difficulty))
    (hgs : ∀ g ∈ gs, ∀ hd, g.head? = some hd → hd.parentDifficultyID ≠ some p) :
    List.foldl addToSiblings gs b = gs ++ [b] := by
  cases b with
  | nil => exact absurd rfl hne
  | cons d0 rest =>
    have hd0 : d0.parentDifficultyID = some p := hb d0 (List.mem_cons_self d0 rest)
    have hstep : addToSiblings gs d0 = gs ++ [[d0]] := by
      refine addToSiblings_append d0 gs ?_
      intro g hm hd hh
      rw [hd0]
      exact hgs g hm hd hh
    calc List.foldl addToSiblings gs (d0 :: rest)
        = List.foldl addToSiblings (gs ++ [[d0]]) rest := by rw [List.foldl_cons, hstep]
      _ = gs ++ [[d0] ++ rest] :=
          foldl_addToSiblings_run p rest gs [d0] d0 hgs rfl hd0
            (fun d hm => hb d (List.mem_cons_of_mem _ hm))
      _ = gs ++ [d0 :: rest] := by simp

theorem childBlocks_head (recs : List createParentDifficultyForMod) :
    ∀ n g, g ∈ childBlocks n recs →
      ∃ hd, g.head? = some hd ∧ ∃ q, hd.parentDifficultyID = some q ∧ n ≤ q := by
  induction recs with
  | nil => intro n g h; simp [childBlocks] at h
  | cons r rest ih =>
    intro n g h
    by_cases hk : (kidsOf r).isEmpty
    · rw [show childBlocks n (r :: rest) = childBlocks (n + 1 + (kidsOf r).length) rest from by
        simp only [childBlocks, if_pos hk]] at h
      obtain ⟨hd, hh, q, hq, hle⟩ := ih (n + 1 + (kidsOf r).length) g h
      exact ⟨hd, hh, q, hq, by omega⟩
    · rw [show childBlocks n (r :: rest) = persistChildren n (n + 1) (kidsOf r)
            :: childBlocks (n + 1 + (kidsOf r).length) rest from by
        simp only [childBlocks, if_neg hk]] at h
      rw [List.mem_cons] at h
      rcases h with h | h
      · subst h
        cases hc : kidsOf r with
        | nil => simp [hc, List.isEmpty_iff] at hk
        | cons c cs =>
          exact ⟨⟨n + 1, c.name, (c.order : Int), some n⟩,
            persistChildren_head? n (n + 1) c cs, n, rfl, le_refl n⟩
      · obtain ⟨hd, hh, q, hq, hle⟩ := ih (n + 1 + (kidsOf r).length) g h
        exact ⟨hd, hh, q, hq, by omega⟩

theorem foldl_childBlocks (recs : List createParentDifficultyForMod) :
    ∀ n gs,
      (∀ g ∈ gs, ∀ hd, g.head? = some hd →
        ∃ q, hd.parentDifficultyID = some q ∧ q < n) →
      List.foldl addToSiblings gs ((childBlocks n recs).flatten) = gs ++ childBlocks n recs := by
  induction recs with
  | nil => intro n gs _; simp [childBlocks]
  | cons r rest ih =>
    intro n gs hgs
    by_cases hk : (kidsOf r).isEmpty
    · rw [show childBlocks n (r :: rest) = childBlocks (n + 1 + (kidsOf r).length) rest from by
        simp only [childBlocks, if_pos hk]]
      refine ih (n + 1 + (kidsOf r).length) gs ?_
      intro g hm hd hh
      obtain ⟨q, hq, hlt⟩ := hgs g hm hd hh
      exact ⟨q, hq, by omega⟩
    · have hkids : kidsOf r ≠ [] := fun hnil => by simp [hnil] at hk
      rw [show childBlocks n (r :: rest) = persistChildren n (n + 1) (kidsOf r)
            :: childBlocks (n + 1 + (kidsOf r).length) rest from by
        simp only [childBlocks, if_neg hk]]
      rw [List.flatten_cons, List.foldl_append]
      have hblk : List.foldl addToSiblings gs (persistChildren n (n + 1) (kidsOf r)) =
          gs ++ [persistChildren n (n + 1) (kidsOf r)] := by
        refine foldl_block n _ (fun d hm => persistChildren_mem_pid hm)
          (persistChildren_ne_nil n (n + 1) hkids) gs ?_
        intro g hm hd hh
        obtain ⟨q, hq, hlt⟩ := hgs g hm hd hh
        rw [hq]
        intro hcontra
        exact absurd (Option.some_injective _ hcontra) (Nat.ne_of_lt hlt)
      rw [hblk]
      have hrest := ih (n + 1 + (kidsOf r).length) (gs ++ [persistChildren n (n + 1) (kidsOf r)]) ?_
      · rw [hrest]; simp
      · intro g hm hd hh
        rw [List.mem_append] at hm
        rcases hm with hm | hm
        · obtain ⟨q, hq, hlt⟩ := hgs g hm hd hh
          exact ⟨q, hq, by omega⟩
        · simp only [List.mem_singleton] at hm
          subst hm
          cases hc : kidsOf r with
          | nil => exact absurd hc hkids
          | cons c cs =>
            rw [hc] at hh
            rw [persistChildren_head? n (n + 1) c cs] at hh
            cases hh
            exact ⟨n, rfl, by omega⟩

theorem siblingGroups_persist (recs : List createParentDifficultyForMod) (n : Nat) :
    siblingGroups (persistGo n recs) = childBlocks n recs := by
  unfold siblingGroups
  rw [persist_filter_children]
  simpa using foldl_childBlocks recs n [] (by simp)

/-! ### Locating parents and sibling groups by order and id -/

theorem parentRowsGo_length (recs : List createParentDifficultyForMod) :
    ∀ n, (parentRowsGo n recs).length = recs.length := by
  induction recs with
  | nil => intro n; rfl
  | cons r rest ih => intro n; simp [parentRowsGo, ih]

theorem parentIds_length (recs : List createParentDifficultyForMod) :
    ∀ n, (parentIds n recs).length = recs.length := by
  induction recs with
  | nil => intro n; rfl
  | cons r rest ih => intro n; simp [parentIds, ih]

theorem parentRowsGo_getElem? (recs : List createParentDifficultyForMod) :
    ∀ (n k : Nat), (parentRowsGo n recs)[k]? =
      (recs[k]?).bind fun r => ((parentIds n recs)[k]?).map fun pid =>
        (⟨pid, r.name, (r.order : Int), none⟩ : Difficulty) := by
  induction recs with
  | nil => intro n k; simp [parentRowsGo, parentIds]
  | cons r rest ih =>
    intro n k
    cases k with
    | zero => simp [parentRowsGo, parentIds]
    | succ k => simp [parentRowsGo, parentIds, ih]

theorem parentIds_ge (recs : List createParentDifficultyForMod) :
    ∀ (n k x : Nat), (parentIds n recs)[k]? = some x → n ≤ x := by
  induction recs with
  | nil => intro n k x h; simp [parentIds] at h
  | cons r rest ih =>
    intro n k x h
    cases k with
    | zero => simp [parentIds] at h; omega
    | succ k =>
      simp only [parentIds, List.getElem?_cons_succ] at h
      have := ih (n + 1 + (kidsOf r).length) k x h
      omega

theorem persistChildren_getElem? (cs : List createChildDifficultyForMod) :
    ∀ (pid nid k : Nat), (persistChildren pid nid cs)[k]? =
      (cs[k]?).map fun c => (⟨nid + k, c.name, (c.order : Int), some pid⟩ : Difficulty) := by
  induction cs with
  | nil => intro pid nid k; simp [persistChildren]
  | cons c rest ih =>
    intro pid nid k
    cases k with
    | zero => simp [persistChildren]
    | succ k =>
      simp only [persistChildren, List.getElem?_cons_succ, ih pid (nid + 1) k]
      cases rest[k]? with
      | none => rfl
      | some c' => simp [Nat.add_assoc, Nat.add_comm 1 k]

/-- Finding an element in a list whose orders are exactly `base, base + 1,
...` returns the element at the requested offset. -/
theorem find?_of_orders :
    ∀ (l : List Difficulty) (base : Int) (i : Nat),
      (∀ (k : Nat) (d : Difficulty), l[k]? = some d → d.order = (k : Int) + base) →
      i < l.length →
      l.find? (fun d => d.order == (i : Int) + base) = l[i]? := by
  intro l
  induction l with
  | nil => intro base i _ hi; simp at hi
  | cons d0 rest ih =>
    intro base i hord hi
    have h0 : d0.order = base := by simpa using hord 0 d0 (by simp)
    cases i with
    | zero =>
      rw [List.find?_cons_of_pos _ (by simp [h0])]
      simp
    | succ j =>
      have hstep :
          (d0 :: rest).find? (fun d => d.order == ((j + 1 : Nat) : Int) + base) =
            rest.find? (fun d => d.order == ((j + 1 : Nat) : Int) + base) :=
        List.find?_cons_of_neg _ (by
          simp only [beq_iff_eq, h0]
          push_cast
          omega)
      rw [hstep]
      have hrest : ∀ (k : Nat) (d : Difficulty),
          rest[k]? = some d → d.order = (k : Int) + (base + 1) := by
        intro k d hk
        have := hord (k + 1) d (by simpa using hk)
        push_cast at this ⊢
        omega
      have hj : j < rest.length := by simpa using hi
      rw [show ((j + 1 : Nat) : Int) + base = (j : Int) + (base + 1) from by push_cast; ring]
      simpa using ih (base + 1) j hrest hj

theorem childBlocks_find (recs : List createParentDifficultyForMod) :
    ∀ (n i pid : Nat) (r : createParentDifficultyForMod) (p : Difficulty),
      recs[i]? = some r →
      (parentIds n recs)[i]? = some pid → p.id = pid →
      (childBlocks n recs).find? (groupMatches (some p)) =
        if (kidsOf r).isEmpty then none
        else some (persistChildren pid (pid + 1) (kidsOf r)) := by
  induction recs with
  | nil => intro n i pid r p hr _ _; simp at hr
  | cons r0 rest ih =>
    intro n i pid r p hr hpid hp
    cases i with
    | zero =>
      have hr0 : r0 = r := by simpa using hr
      have hpid0 : n = pid := by simpa [parentIds] using hpid
      subst hr0
      subst hpid0
      by_cases hk : (kidsOf r0).isEmpty
      · rw [show childBlocks n (r0 :: rest) = childBlocks (n + 1 + (kidsOf r0).length) rest from by
          simp only [childBlocks, if_pos hk]]
        rw [if_pos hk]
        rw [List.find?_eq_none]
        intro g hg
        obtain ⟨hd, hh, q, hq, hle⟩ := childBlocks_head rest (n + 1 + (kidsOf r0).length) g hg
        simp only [groupMatches, hh, hq, hp, beq_iff_eq]
        omega
      · rw [show childBlocks n (r0 :: rest) = persistChildren n (n + 1) (kidsOf r0)
              :: childBlocks (n + 1 + (kidsOf r0).length) rest from by
          simp only [childBlocks, if_neg hk]]
        rw [if_neg hk]
        cases hc : kidsOf r0 with
        | nil => simp [hc, List.isEmpty_iff] at hk
        | cons c cs =>
          exact List.find?_cons_of_pos _ (by
            simp [groupMatches, persistChildren_head? n (n + 1) c cs, hp])
    | succ j =>
      have hr' : rest[j]? = some r := by simpa using hr
      have hpid' : (parentIds (n + 1 + (kidsOf r0).length) rest)[j]? = some pid := by
        simpa [parentIds] using hpid
      have hge : n + 1 + (kidsOf r0).length ≤ pid :=
        parentIds_ge rest (n + 1 + (kidsOf r0).length) j pid hpid'
      by_cases hk : (kidsOf r0).isEmpty
      · rw [show childBlocks n (r0 :: rest) = childBlocks (n + 1 + (kidsOf r0).length) rest from by
          simp only [childBlocks, if_pos hk]]
        exact ih (n + 1 + (kidsOf r0).length) j pid r p hr' hpid' hp
      · rw [show childBlocks n (r0 :: rest) = persistChildren n (n + 1) (kidsOf r0)
              :: childBlocks (n + 1 + (kidsOf r0).length) rest from by
          simp only [childBlocks, if_neg hk]]
        have hstep :
            (persistChildren n (n + 1) (kidsOf r0)
                :: childBlocks (n + 1 + (kidsOf r0).length) rest).find?
                (groupMatches (some p)) =
              (childBlocks (n + 1 + (kidsOf r0).length) rest).find? (groupMatches (some p)) := by
          cases hc : kidsOf r0 with
          | nil => simp [hc, List.isEmpty_iff] at hk
          | cons c cs =>
            refine List.find?_cons_of_neg _ ?_
            simp only [groupMatches, persistChildren_head? n (n + 1) c cs, hp, beq_iff_eq]
            omega
        rw [hstep]
        exact ih (n + 1 + (kidsOf r0).length) j pid r p hr' hpid' hp

theorem range_filterMap_getElem? {α β : Type} (l : List α) (f : α → β) :
    (List.range l.length).filterMap (fun i => (l[i]?).map f) = l.map f := by
  induction l with
  | nil => rfl
  | cons a l ih =>
    rw [List.length_cons, List.range_succ_eq_map]
    rw [List.filterMap_cons]
    simp only [List.getElem?_cons_zero, Option.map_some, List.filterMap_map]
    rw [show ((fun i => ((a :: l)[i]?).map f) ∘ Nat.succ) = fun i => (l[i]?).map f from by
      funext i
      simp]
    rw [ih]
    rfl

theorem persistChildren_map_name (cs : List createChildDifficultyForMod) :
    ∀ pid nid, (persistChildren pid nid cs).map (fun d => d.name) =
      cs.map (fun c => c.name) := by
  induction cs with
  | nil => intro pid nid; rfl
  | cons c rest ih => intro pid nid; simp [persistChildren, ih]

theorem buildChildren_of_orders (b : List Difficulty)
    (hord : ∀ (k : Nat) (d : Difficulty), b[k]? = some d → d.order = (k : Int) + 1) :
    buildChildren b = b.map (fun d => d.name) := by
  have h1 : (List.range b.length).filterMap
        (fun (i : Nat) => (b.find? (fun s => s.order == (i : Int) + 1)).map (fun s => s.name)) =
      (List.range b.length).filterMap (fun (i : Nat) => (b[i]?).map (fun s => s.name)) :=
    List.filterMap_congr fun i hi => by
      rw [find?_of_orders b 1 i hord (List.mem_range.mp hi)]
  unfold buildChildren
  rw [h1]
  exact range_filterMap_getElem? b _

/-- `(recFor e o).order = o`, whichever shape the element has. -/
theorem recFor_order (e : StrOrStrings) (o : Nat) : (recFor e o).order = o := by
  cases e <;> rfl

/-! ### Valid submissions and the continuity check -/

/-- One submission element in the shape §3 describes: a nonempty bare name,
or an inner array with the parent name and at least one child, all names
nonempty. -/
def validEntryB : StrOrStrings → Bool
  | .str s => s != ""
  | .arr l => decide (2 ≤ l.length) && l.all (fun s => s != "")

/-- A valid §4.1 submission: every element satisfies `validEntryB`. -/
def validSubmission (ns : List StrOrStrings) : Prop := ∀ e ∈ ns, validEntryB e = true

/-- An entry the reconstructor's final check rejects. -/
def badEntryB : StrOrStrings → Bool
  | .str s => s == ""
  | .arr l => l.contains ""

theorem checkEntries_cons_str (m : Nat) (s : String) (rest : List StrOrStrings) :
    checkEntries m (.str s :: rest) =
      if s == "" then .error (.parentOrdersNotContinuous m) else checkEntries m rest := rfl

theorem checkEntries_cons_arr (m : Nat) (l : List String) (rest : List StrOrStrings) :
    checkEntries m (.arr l :: rest) =
      if l.contains "" then .error (.childOrdersNotContinuous (l.headD "") m)
      else checkEntries m rest := rfl

theorem checkEntries_ok (m : Nat) :
    ∀ l : List StrOrStrings, (∀ e ∈ l, badEntryB e = false) → checkEntries m l = .ok () := by
  intro l
  induction l with
  | nil => intro _; rfl
  | cons e rest ih =>
    intro h
    have hrest := ih fun e' hm => h e' (List.mem_cons_of_mem _ hm)
    cases e with
    | str s =>
      have he : (s == "") = false := h _ (List.mem_cons_self _ rest)
      rw [checkEntries_cons_str, he]
      simpa using hrest
    | arr l' =>
      have he : (l'.contains "") = false := h _ (List.mem_cons_self _ rest)
      rw [checkEntries_cons_arr, he]
      simpa using hrest

theorem checkEntries_error (m : Nat) :
    ∀ l : List StrOrStrings, (∃ e ∈ l, badEntryB e = true) →
      ∃ err, checkEntries m l = .error err := by
  intro l
  induction l with
  | nil => intro ⟨e, hm, _⟩; simp at hm
  | cons e rest ih =>
    intro ⟨e', hm, hbad⟩
    rcases List.mem_cons.mp hm with rfl | hm'
    · cases e' with
      | str s =>
        have hb : (s == "") = true := hbad
        exact ⟨.parentOrdersNotContinuous m, by rw [checkEntries_cons_str, hb]; simp⟩
      | arr l' =>
        have hb : (l'.contains "") = true := hbad
        exact ⟨.childOrdersNotContinuous (l'.headD "") m, by
          rw [checkEntries_cons_arr, hb]; simp⟩
    · cases e with
      | str s =>
        cases hs : (s == "") with
        | true => exact ⟨.parentOrdersNotContinuous m, by rw [checkEntries_cons_str, hs]; simp⟩
        | false =>
          obtain ⟨err, herr⟩ := ih ⟨e', hm', hbad⟩
          exact ⟨err, by rw [checkEntries_cons_str, hs]; simpa using herr⟩
      | arr l' =>
        cases hs : (l'.contains "") with
        | true =>
          exact ⟨.childOrdersNotContinuous (l'.headD "") m, by
            rw [checkEntries_cons_arr, hs]; simp⟩
        | false =>
          obtain ⟨err, herr⟩ := ih ⟨e', hm', hbad⟩
          exact ⟨err, by rw [checkEntries_cons_arr, hs]; simpa using herr⟩

theorem valid_not_bad {e : StrOrStrings} (h : validEntryB e = true) : badEntryB e = false := by
  cases e with
  | str s => simpa [validEntryB, badEntryB] using h
  | arr l =>
    simp only [validEntryB, Bool.and_eq_true, List.all_eq_true, decide_eq_true_eq] at h
    have hnm : "" ∉ l := by
      intro hmem
      have := h.2 "" hmem
      simp at this
    show l.contains "" = false
    cases hc : l.contains "" with
    | false => rfl
    | true => exact absurd (List.elem_iff.mp hc) hnm

theorem headD_cons_drop {l : List String} (h : l ≠ []) : l.headD "" :: l.drop 1 = l := by
  cases l with
  | nil => exact absurd rfl h
  | cons a t => rfl

instance validSubmission_decidable (ns : List StrOrStrings) : Decidable (validSubmission ns) := by
  unfold validSubmission
  infer_instance

/-- `buildEntry` once the parent lookup has succeeded. -/
theorem buildEntry_found (parents : List Difficulty) (groups : List (List Difficulty))
    (i : Nat) (p : Difficulty)
    (hfind : parents.find? (fun d => d.order == (i : Int) + 1) = some p) :
    buildEntry parents groups i =
      match groups.find? (groupMatches (some p)) with
      | some g => .arr (p.name :: buildChildren g)
      | none => .str p.name := by
  unfold buildEntry
  rw [hfind]
  rfl

/-- Unfolding equation for `getSortedDifficultyNames`. -/
theorem getSortedDifficultyNames_eq (rows : List Difficulty) (modID : Nat) :
    getSortedDifficultyNames rows modID =
      match checkEntries modID
          (buildEntries (rows.filter (fun d => d.parentDifficultyID == none))
            (siblingGroups rows)) with
      | .ok _ => .ok (buildEntries (rows.filter (fun d => d.parentDifficultyID == none))
          (siblingGroups rows))
      | .error e => .error e := rfl

/-! ### The round-trip theorem -/

/-- C1.  Round-trip: parsing a valid submission with `getDifficultyArrays`
(§4.1), persisting its nested creation output as flat difficulty rows, and
reconstructing with `getSortedDifficultyNames` (§4.2) returns exactly the
original submission (names and relative order; the fresh row ids do not
matter). -/
theorem c1_difficulty_round_trip (ns : List StrOrStrings) (modID : Nat)
    (hval : validSubmission ns) :
    getSortedDifficultyNames (persistDifficulties (getDifficultyArrays ns).2.1) modID =
      .ok ns := by
  have hrecElem : ∀ (k : Nat),
      ((getDifficultyArrays ns).2.1)[k]? = (ns[k]?).map fun e => recFor e (k + 1) := by
    intro k
    simpa using getDifficultyArraysGo_recs_getElem? ns 0 k
  have hlen : ((getDifficultyArrays ns).2.1).length = ns.length :=
    getDifficultyArraysGo_recs_length ns 0
  rw [show persistDifficulties (getDifficultyArrays ns).2.1 =
    persistGo 1 (getDifficultyArrays ns).2.1 from rfl]
  generalize hR : (getDifficultyArrays ns).2.1 = recs at hrecElem hlen ⊢
  have hrecOrder : ∀ (k : Nat) (r : createParentDifficultyForMod),
      recs[k]? = some r → r.order = k + 1 := by
    intro k r h
    rw [hrecElem k] at h
    obtain ⟨e, _, hfe⟩ := Option.map_eq_some'.mp h
    rw [← hfe, recFor_order]
  have hrowOrders : ∀ (k : Nat) (d : Difficulty),
      (parentRowsGo 1 recs)[k]? = some d → d.order = (k : Int) + 1 := by
    intro k d h
    rw [parentRowsGo_getElem? recs 1 k] at h
    cases hk : recs[k]? with
    | none => rw [hk] at h; simp at h
    | some r =>
      cases hp : (parentIds 1 recs)[k]? with
      | none => rw [hk, hp] at h; simp at h
      | some pid =>
        rw [hk, hp] at h
        have hd : (⟨pid, r.name, (r.order : Int), none⟩ : Difficulty) = d := by
          simpa using h
        have hro := hrecOrder k r hk
        rw [← hd]
        show ((r.order : Nat) : Int) = (k : Int) + 1
        rw [hro]
        push_cast
        ring
  have hEntries : buildEntries (parentRowsGo 1 recs) (childBlocks 1 recs) = ns := by
    apply List.ext_getElem?
    intro k
    rw [buildEntries, parentRowsGo_length]
    by_cases hk : k < recs.length
    · have hkn : k < ns.length := by omega
      obtain ⟨e, he⟩ : ∃ e, ns[k]? = some e := by
        cases hne : ns[k]? with
        | none => exact absurd (List.getElem?_eq_none_iff.mp hne) (by omega)
        | some e => exact ⟨e, rfl⟩
      have hmapk : ((List.range recs.length).map
          (buildEntry (parentRowsGo 1 recs) (childBlocks 1 recs)))[k]? =
          some (buildEntry (parentRowsGo 1 recs) (childBlocks 1 recs) k) := by
        rw [List.getElem?_map, List.getElem?_range hk]
        rfl
      rw [hmapk, he]
      congr 1
      -- the k-th rebuilt entry is the k-th submission element
      have hplen : k < (parentRowsGo 1 recs).length := by rw [parentRowsGo_length]; omega
      have hfound := find?_of_orders (parentRowsGo 1 recs) 1 k hrowOrders hplen
      obtain ⟨pid, hpid⟩ : ∃ pid, (parentIds 1 recs)[k]? = some pid := by
        cases hp : (parentIds 1 recs)[k]? with
        | none =>
          rw [List.getElem?_eq_none_iff, parentIds_length] at hp
          omega
        | some pid => exact ⟨pid, rfl⟩
      have hreck : recs[k]? = some (recFor e (k + 1)) := by rw [hrecElem k, he]; rfl
      have hrow : (parentRowsGo 1 recs)[k]? =
          some ⟨pid, (recFor e (k + 1)).name, ((recFor e (k + 1)).order : Int), none⟩ := by
        rw [parentRowsGo_getElem?, hreck, hpid]
        rfl
      rw [recFor_order] at hrow
      have hgfind := childBlocks_find recs 1 k pid (recFor e (k + 1))
        ⟨pid, (recFor e (k + 1)).name, ((k + 1 : Nat) : Int), none⟩ hreck hpid rfl
      rw [buildEntry_found (parentRowsGo 1 recs) (childBlocks 1 recs) k
        ⟨pid, (recFor e (k + 1)).name, ((k + 1 : Nat) : Int), none⟩ (by rw [hfound]; exact hrow)]
      cases e with
      | str s =>
        rw [show kidsOf (recFor (.str s) (k + 1)) = [] from rfl] at hgfind
        rw [show ((if ([] : List createChildDifficultyForMod).isEmpty then none
            else some (persistChildren pid (pid + 1) [])) :
              Option (List Difficulty)) = none from rfl] at hgfind
        rw [hgfind]
        rfl
      | arr l =>
        have hv : validEntryB (.arr l) = true := hval _ (List.getElem?_mem he)
        simp only [validEntryB, Bool.and_eq_true, List.all_eq_true, decide_eq_true_eq] at hv
        have hlnil : l ≠ [] := by
          intro hcon
          rw [hcon] at hv
          simp at hv
        have hkids : kidsOf (recFor (.arr l) (k + 1)) = childRecords l := rfl
        have hkne : ¬(childRecords l).isEmpty = true := by
          rw [List.isEmpty_iff]
          intro hcon
          have := congrArg List.length hcon
          rw [childRecords_length] at this
          simp at this
          omega
        rw [hkids, if_neg hkne] at hgfind
        rw [hgfind]
        show StrOrStrings.arr (l.headD ""
          :: buildChildren (persistChildren pid (pid + 1) (childRecords l))) = .arr l
        have hblockOrders : ∀ (j : Nat) (d : Difficulty),
            (persistChildren pid (pid + 1) (childRecords l))[j]? = some d →
            d.order = (j : Int) + 1 := by
          intro j d hj
          rw [persistChildren_getElem? (childRecords l) pid (pid + 1) j] at hj
          cases hcj : (childRecords l)[j]? with
          | none => rw [hcj] at hj; simp at hj
          | some c =>
            rw [hcj] at hj
            have hcd : (⟨pid + 1 + j, c.name, (c.order : Int), some pid⟩ : Difficulty) = d := by
              simpa using hj
            have hco : c.order = 1 + j := by
              have := childRecordsGo_getElem? (l.drop 1) 1 j
              rw [show childRecords l = childRecordsGo 1 (l.drop 1) from rfl] at hcj
              rw [hcj] at this
              obtain ⟨nm, _, hnm⟩ := Option.map_eq_some'.mp this.symm
              rw [← hnm]
            rw [← hcd]
            show ((c.order : Nat) : Int) = (j : Int) + 1
            rw [hco]
            push_cast
            ring
        rw [buildChildren_of_orders _ hblockOrders, persistChildren_map_name,
          childRecords_map_name, headD_cons_drop hlnil]
    · have hkn : ¬k < ns.length := by omega
      rw [List.getElem?_eq_none, List.getElem?_eq_none]
      · omega
      · simpa using Nat.le_of_not_lt hk
  rw [getSortedDifficultyNames_eq]
  rw [persist_filter_parents recs 1, siblingGroups_persist recs 1, hEntries]
  rw [checkEntries_ok modID ns (fun e hm => valid_not_bad (hval e hm))]

theorem groupMatches_none (g : List Difficulty) : groupMatches none g = false := by
  unfold groupMatches
  cases g.head? with
  | none => rfl
  | some h =>
    show (match h.parentDifficultyID, (none : Option Difficulty) with
      | some pid, some p => pid == p.id
      | _, _ => false) = false
    cases h.parentDifficultyID <;> rfl

/-- `buildEntry` when no parent row carries the requested order: the entry
degenerates to the empty string, exactly the sentinel the final check
rejects. -/
theorem buildEntry_not_found (parents : List Difficulty) (groups : List (List Difficulty))
    (i : Nat)
    (hfind : parents.find? (fun d => d.order == (i : Int) + 1) = none) :
    buildEntry parents groups i = .str "" := by
  have hg : groups.find? (groupMatches none) = none :=
    List.find?_eq_none.mpr fun g _ => by simp [groupMatches_none g]
  have hstep : buildEntry parents groups i =
      match groups.find? (groupMatches none) with
      | some g => .arr ("" :: buildChildren g)
      | none => .str "" := by
    unfold buildEntry
    rw [hfind]
    rfl
  rw [hstep, hg]

/-- C5.  Parent-order contiguity: when some order slot `1 ≤ i ≤ number of
parent rows` is hit by no parent row (`parentDifficultyID = null`), the
reconstructor `getSortedDifficultyNames` throws its continuity error rather
than returning a result. -/
theorem c5_parent_order_gap (rows : List Difficulty) (modID : Nat) (i : Nat)
    (h1 : 1 ≤ i)
    (h2 : i ≤ (rows.filter (fun d => d.parentDifficultyID == none)).length)
    (h3 : ∀ d ∈ rows.filter (fun d => d.parentDifficultyID == none), d.order ≠ (i : Int)) :
    ∃ e, getSortedDifficultyNames rows modID = .error e := by
  have hfind : (rows.filter (fun d => d.parentDifficultyID == none)).find?
      (fun d => d.order == ((i - 1 : Nat) : Int) + 1) = none := by
    rw [List.find?_eq_none]
    intro d hd
    have hne := h3 d hd
    simp only [beq_iff_eq]
    intro hcon
    apply hne
    rw [hcon]
    omega
  have hentry : buildEntry (rows.filter (fun d => d.parentDifficultyID == none))
      (siblingGroups rows) (i - 1) = .str "" :=
    buildEntry_not_found _ _ (i - 1) hfind
  have hmem : StrOrStrings.str "" ∈ buildEntries
      (rows.filter (fun d => d.parentDifficultyID == none)) (siblingGroups rows) := by
    rw [buildEntries, ← hentry]
    exact List.mem_map_of_mem _ (List.mem_range.mpr (by omega))
  obtain ⟨err, herr⟩ := checkEntries_error modID _ ⟨.str "", hmem, rfl⟩
  exact ⟨err, by rw [getSortedDifficultyNames_eq, herr]⟩

/-- Witness for C5: three parent rows with orders 1, 3, 4 — the slot
`order = 2` is empty, and reconstruction errors out. -/
theorem c5_parent_order_gap_witness :
    1 ≤ 2 ∧
    ∃ e, getSortedDifficultyNames
      [⟨1, "A", 1, none⟩, ⟨2, "B", 3, none⟩, ⟨3, "C", 4, none⟩] 9 = .error e :=
  ⟨by decide,
    c5_parent_order_gap [⟨1, "A", 1, none⟩, ⟨2, "B", 3, none⟩, ⟨3, "C", 4, none⟩] 9 2
      (by decide) (by decide) (by decide)⟩

/-- C2 evaluation.  A sibling group with orders 1 and 3 (slot 2 empty) does
NOT raise the child-continuity error: the missing slot pushes nothing, the
row with order 3 is silently dropped, and the function returns
`ok [["P", "A"]]`.  This contradicts the source's own comment ("check that
all orders are continuous") and its (unreachable-for-gaps) child error
message. -/
theorem c2_child_order_gap_not_detected :
    getSortedDifficultyNames
      [⟨1, "P", 1, none⟩, ⟨2, "A", 1, some 1⟩, ⟨3, "B", 3, some 1⟩] 7 =
      .ok [.arr ["P", "A"]] := rfl

/-- C3 counterexample: the flat name list for the worked example is NOT
`["Easy", "Medium", "Medium+", "Hard"]` — the parser pushes an inner
array's children before its parent. -/
theorem c3_flat_order_counterexample :
    (getDifficultyArrays [.str "Easy", .arr ["Medium", "Medium+"], .str "Hard"]).1 ≠
      [⟨"Easy"⟩, ⟨"Medium"⟩, ⟨"Medium+"⟩, ⟨"Hard"⟩] := by decide

/-- C3 amended.  The worked example, with the flat name list in the order
the parser actually produces (`children before their parent`):
`["Easy", "Medium+", "Medium", "Hard"]`; the creation records, the
has-sub-difficulties flag and the reconstruction are as the claim states. -/
theorem c3_worked_example :
    getDifficultyArrays [.str "Easy", .arr ["Medium", "Medium+"], .str "Hard"] =
      ([⟨"Easy"⟩, ⟨"Medium+"⟩, ⟨"Medium"⟩, ⟨"Hard"⟩],
       [⟨"Easy", 1, none⟩, ⟨"Medium", 2, some [⟨"Medium+", 1⟩]⟩, ⟨"Hard", 3, none⟩],
       true) ∧
    getSortedDifficultyNames
      [⟨1, "Easy", 1, none⟩, ⟨2, "Medium", 2, none⟩, ⟨3, "Hard", 3, none⟩,
       ⟨4, "Medium+", 1, some 2⟩] 1 =
      .ok [.str "Easy", .arr ["Medium", "Medium+"], .str "Hard"] :=
  ⟨rfl, rfl⟩

/-- The parser's creation-record list, element by element. -/
theorem getDifficultyArrays_recs_getElem? (ns : List StrOrStrings) (k : Nat) :
    ((getDifficultyArrays ns).2.1)[k]? = (ns[k]?).map fun e => recFor e (k + 1) := by
  simpa using getDifficultyArraysGo_recs_getElem? ns 0 k

/-- C6.  Order assignment: every parent creation record gets `order` equal
to its 1-based position in the outer sequence; an inner array's record nests
`childRecords`, in which the `j`-th child (0-based, parent name excluded)
carries `order = j + 1` and the name at inner position `j + 1`. -/
theorem c6_order_assignment (ns : List StrOrStrings) :
    (∀ (k : Nat) (r : createParentDifficultyForMod),
      ((getDifficultyArrays ns).2.1)[k]? = some r → r.order = k + 1) ∧
    (∀ (k : Nat) (l : List String), ns[k]? = some (.arr l) →
      ((getDifficultyArrays ns).2.1)[k]? = some (recFor (.arr l) (k + 1))) ∧
    (∀ (l : List String) (j : Nat),
      (childRecords l)[j]? = ((l.drop 1)[j]?).map fun n => { name := n, order := j + 1 }) := by
  refine ⟨?_, ?_, ?_⟩
  · intro k r h
    rw [getDifficultyArrays_recs_getElem?] at h
    obtain ⟨e, _, hfe⟩ := Option.map_eq_some'.mp h
    rw [← hfe, recFor_order]
  · intro k l h
    rw [getDifficultyArrays_recs_getElem?, h]
    rfl
  · intro l j
    rw [show childRecords l = childRecordsGo 1 (l.drop 1) from rfl,
      childRecordsGo_getElem? (l.drop 1) 1 j]
    simp [Nat.add_comm]

/-- Witness for C6 on `[["P", "A", "B"], "X"]`. -/
theorem c6_order_assignment_witness :
    ((getDifficultyArrays [.arr ["P", "A", "B"], .str "X"]).2.1)[0]? =
      some (recFor (.arr ["P", "A", "B"]) 1) :=
  (c6_order_assignment [.arr ["P", "A", "B"], .str "X"]).2.1 0 ["P", "A", "B"] rfl

/-- C8.  Parser totality: on every input — malformed ones included —
`getDifficultyArrays` returns its triple with no validation: one creation
record per element, one flat name per bare string and `max 1 (inner length)`
flat names per inner array (an empty inner array still contributes its
`undefined` parent-name slot), and the flag is exactly "some element is an
array".  The embedding is a total function because no statement of the
source routine can throw. -/
theorem c8_parser_total (ns : List StrOrStrings) :
    ((getDifficultyArrays ns).1).length = (ns.map flatNameCount).sum ∧
    ((getDifficultyArrays ns).2.1).length = ns.length ∧
    (getDifficultyArrays ns).2.2 = ns.any StrOrStrings.isArr :=
  ⟨getDifficultyArraysGo_names_length ns 0, getDifficultyArraysGo_recs_length ns 0,
    getDifficultyArraysGo_flag ns 0⟩

/-- Witness for C1 at the spec's worked example. -/
theorem c1_difficulty_round_trip_witness :
    validSubmission [.str "Easy", .arr ["Medium", "Medium+"], .str "Hard"] ∧
    getSortedDifficultyNames (persistDifficulties
      (getDifficultyArrays [.str "Easy", .arr ["Medium", "Medium+"], .str "Hard"]).2.1) 42 =
      .ok [.str "Easy", .arr ["Medium", "Medium+"], .str "Hard"] :=
  ⟨by decide, c1_difficulty_round_trip _ 42 (by decide)⟩

/-! ### The map difficulty validator (`handleNonNormalMods`) -/

/-- One row of a default parent difficulty's included `other_difficulties`
(only the fields the validator reads). -/
structure defaultChildDifficulty where
  id : Nat
  name : String
deriving Repr, DecidableEq

/-- `defaultDifficultyForMod` from `types/internal`: a default (global)
parent difficulty with its `other_difficulties` rows included. -/
structure defaultDifficultyForMod where
  id : Nat
  name : String
  other_difficulties : Option (List defaultChildDifficulty) := none
deriving Repr, DecidableEq

/-- The strings thrown by the map-creation helpers.
`invalidMapDifficulty` stands for `invalidMapDifficultyErrorMessage`;
`emptyCustomDifficultiesArray` / `emptyDefaultDifficultyObjectsArray` for
the literal "... is empty" strings; `canonicalDifficultyName`, `techName`,
`length` and `invalidMapperUserId` for the corresponding `...ErrorMessage`
constants; `duplicateParentOrder`, `noEasiestParentDifficulty` and
`noHighestDifficultyID` for the remaining `getCanonicalDifficultyID`
messages. -/
inductive MapCreationError where
  | invalidMapDifficulty
  | emptyCustomDifficultiesArray
  | emptyDefaultDifficultyObjectsArray
  | canonicalDifficultyName
  | techName
  | length
  | invalidMapperUserId (id : Nat)
  | duplicateParentOrder
  | noEasiestParentDifficulty
  | noHighestDifficultyID
deriving Repr, DecidableEq

/-- The mutations `handleNonNormalMods` applies to
`mapIdCreationObject.map_details.create[0]`, plus the local
`validModDifficultyBool` it computes.  The source assigns that variable in
four places but never reads it afterwards. -/
structure handleNonNormalModsResult where
  overallRank : Option Nat := none
  modDifficultyConnectID : Option Nat := none
  validModDifficultyBool : Bool := false
deriving Repr, DecidableEq

/-- JS falsiness of the `modDifficulty` argument
(`string | string[] | undefined`): `undefined` and `""` are falsy; arrays
(even empty ones) are truthy. -/
def modDifficultyFalsy : Option StrOrStrings → Bool
  | none => true
  | some (.str s) => s == ""
  | some (.arr _) => false

/-- `handleNonNormalMods` (§4.3).  `modType` is the `mods_details_type`
enum value as a string; the `overallRank` field is written only for
`"Contest"` mods.  Note that after the loops the source returns without
inspecting `validModDifficultyBool`. -/
def handleNonNormalMods (modType : String) (overallRank : Option Nat)
    (modDifficulty : Option StrOrStrings)
    (customDifficultiesArray : List createParentDifficultyForMod)
    (defaultDifficultyObjectsArray : List defaultDifficultyForMod)
    (modUsesCustomDifficultiesBool modHasSubDifficultiesBool : Bool) :
    Except MapCreationError handleNonNormalModsResult :=
  let rank := if modType == "Contest" then overallRank else none
  if modDifficultyFalsy modDifficulty then .error .invalidMapDifficulty
  else
    match modDifficulty with
    | none => .error .invalidMapDifficulty
    | some md =>
      if modUsesCustomDifficultiesBool then
        if customDifficultiesArray.length == 0 then .error .emptyCustomDifficultiesArray
        else if modHasSubDifficultiesBool then
          match md with
          | .str _ => .error .invalidMapDifficulty
          | .arr pair =>
            let valid :=
              match customDifficultiesArray.find? (fun d =>
                  d.other_difficulties.isSome && (pair[0]? == some d.name)) with
              | some d => (d.other_difficulties.getD []).any (fun c => pair[1]? == some c.name)
              | none => false
            .ok { overallRank := rank, validModDifficultyBool := valid }
        else
          match md with
          | .arr _ => .error .invalidMapDifficulty
          | .str s =>
            .ok { overallRank := rank,
                  validModDifficultyBool := customDifficultiesArray.any (fun d => d.name == s) }
      else
        if defaultDifficultyObjectsArray.length == 0 then
          .error .emptyDefaultDifficultyObjectsArray
        else
          match md with
          | .str _ => .error .invalidMapDifficulty
          | .arr pair =>
            let connect :=
              match defaultDifficultyObjectsArray.find? (fun d =>
                  !((d.other_difficulties.getD []).length == 0) && (pair[0]? == some d.name)) with
              | some d =>
                ((d.other_difficulties.getD []).find?
                  (fun c => pair[1]? == some c.name)).map (fun c => c.id)
              | none => none
            .ok { overallRank := rank, modDifficultyConnectID := connect,
                  validModDifficultyBool := connect.isSome }

/-- C4 evaluation.  A claimed pair whose child is not under the named
parent is NOT rejected: the function computes `validModDifficultyBool =
false` and returns normally, because the source never reads that variable
after the loops (the route code even comments that `modDifficulty has
already been checked by a helper function`). -/
theorem c4_absent_pair_not_rejected :
    handleNonNormalMods "Collab" none (some (.arr ["Medium", "Impossible"]))
      [⟨"Medium", 1, some [⟨"Medium+", 1⟩]⟩] [] true true =
      .ok { validModDifficultyBool := false } := rfl

/-- C7 counterexample: a `[parent, child]` pair claimed against a default
tree with no sub-difficulties is not rejected — the function returns
normally with `validModDifficultyBool = false`. -/
theorem c7_depth_mismatch_counterexample :
    handleNonNormalMods "Collab" none (some (.arr ["Easy", "X"]))
      [] [⟨1, "Easy", none⟩] false false =
      .ok { validModDifficultyBool := false } := rfl

/-- C7 amended.  Nesting-depth mismatches are rejected with the
`InvalidMapDifficulty` condition in these cases: a mod using custom
difficulties with sub-difficulties against a bare name, a mod using custom
difficulties without sub-difficulties against a pair, and a default-tree
mod against a bare name (the relevant difficulty array being nonempty).  A
pair against a default tree without sub-difficulties is NOT rejected (see
the counterexample). -/
theorem c7_nesting_depth_mismatch (modType : String) (overallRank : Option Nat)
    (md : StrOrStrings) (custom : List createParentDifficultyForMod)
    (defaults : List defaultDifficultyForMod) (usesCustom hasSub : Bool)
    (hne : if usesCustom then custom ≠ [] else defaults ≠ [])
    (hmm : (usesCustom = true ∧ hasSub = true ∧ md.isArr = false) ∨
           (usesCustom = true ∧ hasSub = false ∧ md.isArr = true) ∨
           (usesCustom = false ∧ md.isArr = false)) :
    handleNonNormalMods modType overallRank (some md) custom defaults usesCustom hasSub =
      .error .invalidMapDifficulty := by
  unfold handleNonNormalMods
  rcases hmm with ⟨hc, hs, hm⟩ | ⟨hc, hs, hm⟩ | ⟨hc, hm⟩
  · subst hc hs
    cases md with
    | arr l => simp [StrOrStrings.isArr] at hm
    | str s =>
      rw [if_pos rfl] at hne
      by_cases hs0 : s == ""
      · simp [modDifficultyFalsy, hs0]
      · have hlen : (custom.length == 0) = false := by
          simp only [beq_eq_false_iff_ne, ne_eq, List.length_eq_zero]
          exact hne
        simp [modDifficultyFalsy, hs0, hlen]
  · subst hc hs
    cases md with
    | str s => simp [StrOrStrings.isArr] at hm
    | arr l =>
      rw [if_pos rfl] at hne
      have hlen : (custom.length == 0) = false := by
        simp only [beq_eq_false_iff_ne, ne_eq, List.length_eq_zero]
        exact hne
      simp [modDifficultyFalsy, hlen]
  · subst hc
    cases md with
    | arr l => simp [StrOrStrings.isArr] at hm
    | str s =>
      rw [if_neg (by simp)] at hne
      by_cases hs0 : s == ""
      · simp [modDifficultyFalsy, hs0]
      · have hlen : (defaults.length == 0) = false := by
          simp only [beq_eq_false_iff_ne, ne_eq, List.length_eq_zero]
          exact hne
        simp [modDifficultyFalsy, hs0, hlen]

/-- Witness for C7: a bare name against a custom tree with
sub-difficulties is rejected. -/
theorem c7_nesting_depth_mismatch_witness :
    handleNonNormalMods "Collab" none (some (.str "Medium"))
      [⟨"Medium", 1, some [⟨"Medium+", 1⟩]⟩] [] true true =
      .error .invalidMapDifficulty :=
  c7_nesting_depth_mismatch "Collab" none (.str "Medium")
    [⟨"Medium", 1, some [⟨"Medium+", 1⟩]⟩] [] true true (by decide)
    (Or.inl ⟨rfl, rfl, rfl⟩)

/-! ### GameBanana identity lookups -/

/-- The message of the `Error` both lookups throw on a non-200 status. -/
def gamebananaApiErrorMessage : String := "GameBanana api not responding as expected."

/-- `getGamebananaUsernameById`: the HTTP response is modelled as its
status code together with `String(axiosResponse.data[0])` (JS `String(x)`
is total, so a plain `String` argument). -/
def getGamebananaUsernameById (status : Nat) (firstElemAsString : String) :
    Except String String :=
  if status != 200 then .error gamebananaApiErrorMessage
  else .ok firstElemAsString

/-- `getGamebananaIdByUsername`: `Number(axiosResponse.data[0])` is
modelled as `Option Int`, `none` standing for `NaN`; a `NaN` parse is
replaced by the sentinel `-1`. -/
def getGamebananaIdByUsername (status : Nat) (firstElemAsNumber : Option Int) :
    Except String Int :=
  if status != 200 then .error gamebananaApiErrorMessage
  else
    match firstElemAsNumber with
    | some n => .ok n
    | none => .ok (-1)

/-- C9.  Identity-lookup sentinels: with a well-formed (status 200)
response, the name-by-id lookup returns the stringified first element (the
display name, or the stringified not-found marker) and the id-by-username
lookup returns the parsed number, or `-1` whenever the first element does
not parse as a number; neither lookup errors on a not-found result. -/
theorem c9_identity_lookup_sentinels (firstString : String) (firstNumber : Option Int) :
    getGamebananaUsernameById 200 firstString = .ok firstString ∧
    (∀ n, firstNumber = some n → getGamebananaIdByUsername 200 firstNumber = .ok n) ∧
    (firstNumber = none → getGamebananaIdByUsername 200 firstNumber = .ok (-1)) := by
  refine ⟨rfl, ?_, ?_⟩
  · intro n h
    rw [h]
    rfl
  · intro h
    rw [h]
    rfl

/-- Witness for C9: a response whose first element is not a number yields
the `-1` sentinel. -/
theorem c9_identity_lookup_sentinels_witness :
    getGamebananaIdByUsername 200 none = .ok (-1) :=
  (c9_identity_lookup_sentinels "steve" none).2.2 rfl

/-! ### Map creation (`getMapIdCreationObject`) -/

/-- `submitterUser` from `types/internal` (the shape of the module-level
`submittingUser` placeholder).  The placeholder is a stand-in for session
auth (spec §9), so the model passes the user explicitly. -/
structure submitterUser where
  id : Nat
  displayName : String
  discordID : String
  discordUsername : String
  discordDiscrim : String
  displayDiscord : Bool
  timeCreated : Nat
  permissions : String
  permissionsArray : List String
  accountStatus : String
  timeDeletedOrBanned : Option Nat := none
deriving Repr, DecidableEq

/-- `privilegedUser`: true when `permissionsArray` holds `Super_Admin`,
`Admin` or `Map_Moderator` (the empty-array early return is kept as in the
source).  The surrounding `try/catch` cannot trigger here, so the embedding
returns `Bool` directly. -/
def privilegedUser (user : submitterUser) : Bool :=
  if user.permissionsArray.length == 0 then false
  else user.permissionsArray.any fun perm =>
    perm == "Super_Admin" || perm == "Admin" || perm == "Map_Moderator"

/-- A `map_lengths` row (consumed fields only). -/
structure map_lengths where
  id : Nat
  name : String
deriving Repr, DecidableEq

/-- The length-resolution loop of `getMapIdCreationObject`: `lengthID`
starts at 0 and takes the id of the first length row matching the map's
length name (a genuine row with id 0 would also trip the later
`lengthID === 0` check, exactly as in the source). -/
def lengthIDLookup (lengthObjectArray : List map_lengths) (lengthName : String) : Nat :=
  match lengthObjectArray.find? (fun len => len.name == lengthName) with
  | some len => len.id
  | none => 0

/-- A `tech_list` row with its included canonical `difficulties` row, as
`getCanonicalDifficultyID` reads it: the tech name, the order of its
difficulty, and its `defaultDifficultyID`. -/
structure techWithDifficulty where
  name : String
  defaultDifficultyID : Nat
  difficultyOrder : Int
deriving Repr, DecidableEq

/-- `jsonCreateMapWithMod`: the request-body fields of one map that
`getMapIdCreationObject` consumes. -/
structure jsonCreateMapWithMod where
  name : String
  length : String
  description : Option String := none
  notes : Option String := none
  minimumModVersion : String
  mapRemovedFromModBool : Bool
  techAny : Option (List String) := none
  techFC : Option (List String) := none
  canonicalDifficulty : Option String := none
  mapperUserID : Option Nat := none
  mapperNameString : Option String := none
  chapter : Option Nat := none
  side : Option String := none
  modDifficulty : Option StrOrStrings := none
  overallRank : Option Nat := none

/-- The single element of `map_details.create` built by
`getMapIdCreationObject`.  The nested `connect` objects are modelled by the
connected ids; absent fields are `none`; the `maps_to_tech` creation list
is the tech names paired with their `fullClearOnlyBool`. -/
structure mapDetailsCreationObject where
  name : String
  canonicalDifficulty : Nat
  lengthID : Nat
  description : Option String := none
  notes : Option String := none
  minimumModVersion : String
  mapRemovedFromModBool : Bool
  timeSubmitted : Nat
  submittedBy : Nat
  timeApproved : Option Nat := none
  approvedBy : Option Nat := none
  mapperUserID : Option Nat := none
  mapperNameString : Option String := none
  chapter : Option Nat := none
  side : Option String := none
  overallRank : Option Nat := none
  modDifficultyID : Option Nat := none
  techs : List (String × Bool) := []

/-- `mapIdCreationObject`: its `map_details.create` array always holds
exactly one element, modelled as a single record. -/
structure mapIdCreationObject where
  map_details : mapDetailsCreationObject

/-- JS truthiness of an optional number (`0` is falsy). -/
def optNatTruthy : Option Nat → Bool
  | none => false
  | some n => n != 0

/-- JS truthiness of an optional string (`""` is falsy). -/
def optStrTruthy : Option String → Bool
  | none => false
  | some s => s != ""

/-- `getCanonicalDifficultyID`: resolve the canonical difficulty from its
name, or — when no name is given — from the easiest default parent
difficulty (no tech) or the hardest difficulty among the given tech names.
`parentDefaultDifficulties` stands for the rows the source queries
(`parentModID` and `parentDifficultyID` both null), `techObjects` for the
`tech_list` rows with their difficulties included. -/
def getCanonicalDifficultyID (parentDefaultDifficulties : List Difficulty)
    (techObjects : List techWithDifficulty)
    (canonicalDifficultyName : Option String) (techAny : Option (List String)) :
    Except MapCreationError Nat :=
  if optStrTruthy canonicalDifficultyName then
    match parentDefaultDifficulties.find? (fun d => canonicalDifficultyName == some d.name) with
    | some d => .ok d.id
    | none => .error .canonicalDifficultyName
  else
    match techAny with
    | none =>
      match parentDefaultDifficulties.foldlM (fun (st : Nat × Int) d =>
          if d.order == st.2 then Except.error MapCreationError.duplicateParentOrder
          else if d.order < st.2 then Except.ok (d.id, d.order) else Except.ok st)
          ((0 : Nat), (99999 : Int)) with
      | .error e => .error e
      | .ok st => if st.1 == 0 then .error .noEasiestParentDifficulty else .ok st.1
    | some techList =>
      match techList.foldlM (fun (st : Nat × Int) techName =>
          match techObjects.find? (fun t => t.name == techName) with
          | none => Except.error MapCreationError.techName
          | some t =>
            if t.difficultyOrder == st.2 then Except.error MapCreationError.duplicateParentOrder
            else if st.2 < t.difficultyOrder then Except.ok (t.defaultDifficultyID, t.difficultyOrder)
            else Except.ok st) ((0 : Nat), (0 : Int)) with
      | .error e => .error e
      | .ok st => if st.1 == 0 then .error .noHighestDifficultyID else .ok st.1

/-- The privileged-submitter step of `getMapIdCreationObject`: a privileged
user's submission is stamped approved at submission time by that user. -/
def applyPrivileged (user : submitterUser) (currentTime : Nat)
    (d : mapDetailsCreationObject) : mapDetailsCreationObject :=
  if privilegedUser user then
    { d with timeApproved := some currentTime, approvedBy := some user.id }
  else d

/-- The mapper attribution step: a truthy `mapperUserID` must exist in the
users table (`userExists` models the `prisma.users.findUnique` probe);
otherwise a truthy `mapperNameString` is stored verbatim. -/
def applyMapper (userExists : Nat → Bool) (mapperUserID : Option Nat)
    (mapperNameString : Option String) (d : mapDetailsCreationObject) :
    Except MapCreationError mapDetailsCreationObject :=
  if optNatTruthy mapperUserID then
    if userExists (mapperUserID.getD 0) then .ok { d with mapperUserID := some (mapperUserID.getD 0) }
    else .error (.invalidMapperUserId (mapperUserID.getD 0))
  else if optStrTruthy mapperNameString then .ok { d with mapperNameString := mapperNameString }
  else .ok d

/-- The mod-type step: `Normal` mods store chapter and side; other mod
types run `handleNonNormalMods` and store its mutations. -/
def applyTypeFields (modType : String) (mapObject : jsonCreateMapWithMod)
    (customDifficultiesArray : List createParentDifficultyForMod)
    (defaultDifficultyObjectsArray : List defaultDifficultyForMod)
    (modUsesCustomDifficultiesBool modHasSubDifficultiesBool : Bool)
    (d : mapDetailsCreationObject) : Except MapCreationError mapDetailsCreationObject :=
  if modType == "Normal" then
    .ok { d with chapter := mapObject.chapter, side := mapObject.side }
  else
    match handleNonNormalMods modType mapObject.overallRank mapObject.modDifficulty
        customDifficultiesArray defaultDifficultyObjectsArray
        modUsesCustomDifficultiesBool modHasSubDifficultiesBool with
    | .error e => .error e
    | .ok r =>
      .ok { d with
        overallRank := r.overallRank,
        modDifficultyID := r.modDifficultyConnectID }

/-- The tech step: when either tech list is present, the `maps_to_tech`
creation records are the `techAny` names (`fullClearOnlyBool = false`)
followed by the `techFC` names (`fullClearOnlyBool = true`). -/
def applyTechs (techAny techFC : Option (List String))
    (d : mapDetailsCreationObject) : mapDetailsCreationObject :=
  if techAny.isSome || techFC.isSome then
    { d with techs := (techAny.getD []).map (fun t => (t, false)) ++
        (techFC.getD []).map (fun t => (t, true)) }
  else d

/-- `getMapIdCreationObject`: build the nested creation object for one map.
The asynchronous collaborators are injected: `userExists` for the users
table, `parentDefaultDifficulties` and `techObjects` for the rows
`getCanonicalDifficultyID` queries.  The source reads the module-level
`submittingUser` placeholder; it is passed explicitly here. -/
def getMapIdCreationObject (submittingUser : submitterUser) (userExists : Nat → Bool)
    (parentDefaultDifficulties : List Difficulty) (techObjects : List techWithDifficulty)
    (mapObject : jsonCreateMapWithMod) (currentTime : Nat) (modType : String)
    (lengthObjectArray : List map_lengths)
    (customDifficultiesArray : List createParentDifficultyForMod)
    (defaultDifficultyObjectsArray : List defaultDifficultyForMod)
    (modUsesCustomDifficultiesBool modHasSubDifficultiesBool : Bool) :
    Except MapCreationError mapIdCreationObject :=
  match getCanonicalDifficultyID parentDefaultDifficulties techObjects
      mapObject.canonicalDifficulty mapObject.techAny with
  | .error e => .error e
  | .ok canonicalDifficultyID =>
    if lengthIDLookup lengthObjectArray mapObject.length == 0 then .error .length
    else
      match applyMapper userExists mapObject.mapperUserID mapObject.mapperNameString
          (applyPrivileged submittingUser currentTime {
            name := mapObject.name,
            canonicalDifficulty := canonicalDifficultyID,
            lengthID := lengthIDLookup lengthObjectArray mapObject.length,
            description := mapObject.description,
            notes := mapObject.notes,
            minimumModVersion := mapObject.minimumModVersion,
            mapRemovedFromModBool := mapObject.mapRemovedFromModBool,
            timeSubmitted := currentTime,
            submittedBy := submittingUser.id }) with
      | .error e => .error e
      | .ok details2 =>
        match applyTypeFields modType mapObject customDifficultiesArray
            defaultDifficultyObjectsArray modUsesCustomDifficultiesBool
            modHasSubDifficultiesBool details2 with
        | .error e => .error e
        | .ok details3 =>
          .ok { map_details := applyTechs mapObject.techAny mapObject.techFC details3 }

theorem privilegedUser_iff (u : submitterUser) :
    privilegedUser u = true ↔
      ∃ p ∈ u.permissionsArray,
        p = "Super_Admin" ∨ p = "Admin" ∨ p = "Map_Moderator" := by
  unfold privilegedUser
  by_cases h0 : u.permissionsArray.length == 0
  · have he : u.permissionsArray = [] := List.length_eq_zero.mp (by simpa using h0)
    simp [h0, he]
  · simp [h0, List.any_eq_true, Bool.or_eq_true, beq_iff_eq, or_assoc]

theorem applyMapper_approval {userExists : Nat → Bool} {mid : Option Nat}
    {mns : Option String} {d d' : mapDetailsCreationObject}
    (h : applyMapper userExists mid mns d = .ok d') :
    d'.timeApproved = d.timeApproved ∧ d'.approvedBy = d.approvedBy := by
  unfold applyMapper at h
  split at h
  · split at h
    · cases h; exact ⟨rfl, rfl⟩
    · cases h
  · split at h
    · cases h; exact ⟨rfl, rfl⟩
    · cases h; exact ⟨rfl, rfl⟩

theorem applyTypeFields_approval {modType : String} {mapObject : jsonCreateMapWithMod}
    {custom : List createParentDifficultyForMod} {defaults : List defaultDifficultyForMod}
    {uc hs : Bool} {d d' : mapDetailsCreationObject}
    (h : applyTypeFields modType mapObject custom defaults uc hs d = .ok d') :
    d'.timeApproved = d.timeApproved ∧ d'.approvedBy = d.approvedBy := by
  unfold applyTypeFields at h
  split at h
  · cases h; exact ⟨rfl, rfl⟩
  · split at h
    · cases h
    · cases h; exact ⟨rfl, rfl⟩

theorem applyTechs_approval (ta tf : Option (List String)) (d : mapDetailsCreationObject) :
    (applyTechs ta tf d).timeApproved = d.timeApproved ∧
    (applyTechs ta tf d).approvedBy = d.approvedBy := by
  unfold applyTechs
  split
  · exact ⟨rfl, rfl⟩
  · exact ⟨rfl, rfl⟩

theorem applyPrivileged_timeApproved (u : submitterUser) (t : Nat)
    (d : mapDetailsCreationObject) :
    (applyPrivileged u t d).timeApproved =
      (if privilegedUser u then some t else d.timeApproved) := by
  unfold applyPrivileged
  split
  · rfl
  · rfl

theorem applyPrivileged_approvedBy (u : submitterUser) (t : Nat)
    (d : mapDetailsCreationObject) :
    (applyPrivileged u t d).approvedBy =
      (if privilegedUser u then some u.id else d.approvedBy) := by
  unfold applyPrivileged
  split
  · rfl
  · rfl

/-- The approval fields of every successfully built map creation object
are exactly what the privileged-submitter step set. -/
theorem getMapIdCreationObject_approval
    (submittingUser : submitterUser) (userExists : Nat → Bool)
    (parentDefaultDifficulties : List Difficulty) (techObjects : List techWithDifficulty)
    (mapObject : jsonCreateMapWithMod) (currentTime : Nat) (modType : String)
    (lengthObjectArray : List map_lengths)
    (customDifficultiesArray : List createParentDifficultyForMod)
    (defaultDifficultyObjectsArray : List defaultDifficultyForMod)
    (modUsesCustomDifficultiesBool modHasSubDifficultiesBool : Bool)
    (obj : mapIdCreationObject)
    (h : getMapIdCreationObject submittingUser userExists parentDefaultDifficulties
      techObjects mapObject currentTime modType lengthObjectArray
      customDifficultiesArray defaultDifficultyObjectsArray
      modUsesCustomDifficultiesBool modHasSubDifficultiesBool = .ok obj) :
    obj.map_details.timeApproved =
      (if privilegedUser submittingUser then some currentTime else none) ∧
    obj.map_details.approvedBy =
      (if privilegedUser submittingUser then some submittingUser.id else none) := by
  unfold getMapIdCreationObject at h
  cases hcan : getCanonicalDifficultyID parentDefaultDifficulties techObjects
      mapObject.canonicalDifficulty mapObject.techAny with
  | error e => simp only [hcan] at h; cases h
  | ok cid =>
    simp only [hcan] at h
    generalize hd0 : ({
      name := mapObject.name,
      canonicalDifficulty := cid,
      lengthID := lengthIDLookup lengthObjectArray mapObject.length,
      description := mapObject.description,
      notes := mapObject.notes,
      minimumModVersion := mapObject.minimumModVersion,
      mapRemovedFromModBool := mapObject.mapRemovedFromModBool,
      timeSubmitted := currentTime,
      submittedBy := submittingUser.id } : mapDetailsCreationObject) = d0 at h
    by_cases hlen : (lengthIDLookup lengthObjectArray mapObject.length == 0) = true
    · rw [if_pos hlen] at h
      cases h
    · rw [if_neg hlen] at h
      cases hm2 : applyMapper userExists mapObject.mapperUserID mapObject.mapperNameString
          (applyPrivileged submittingUser currentTime d0) with
      | error e => simp only [hm2] at h; cases h
      | ok d2 =>
        simp only [hm2] at h
        cases hm3 : applyTypeFields modType mapObject customDifficultiesArray
            defaultDifficultyObjectsArray modUsesCustomDifficultiesBool
            modHasSubDifficultiesBool d2 with
        | error e => simp only [hm3] at h; cases h
        | ok d3 =>
          simp only [hm3] at h
          cases h
          have h3 := applyTechs_approval mapObject.techAny mapObject.techFC d3
          have h2 := applyTypeFields_approval hm3
          have h1 := applyMapper_approval hm2
          rw [h3.1, h3.2, h2.1, h2.2, h1.1, h1.2,
            applyPrivileged_timeApproved, applyPrivileged_approvedBy, ← hd0]
          exact ⟨rfl, rfl⟩

/-- C10.  Auto-approval of privileged submitters: every map creation object
`getMapIdCreationObject` builds has `timeApproved = currentTime` and an
`approvedBy` connection to the submitting user exactly when that permissionsArray of the submitting user holds `Super_Admin`, `Admin` or `Map_Moderator`, and
leaves both approval fields unset otherwise. -/
theorem c10_privileged_auto_approval
    (submittingUser : submitterUser) (userExists : Nat → Bool)
    (parentDefaultDifficulties : List Difficulty) (techObjects : List techWithDifficulty)
    (mapObject : jsonCreateMapWithMod) (currentTime : Nat) (modType : String)
    (lengthObjectArray : List map_lengths)
    (customDifficultiesArray : List createParentDifficultyForMod)
    (defaultDifficultyObjectsArray : List defaultDifficultyForMod)
    (modUsesCustomDifficultiesBool modHasSubDifficultiesBool : Bool)
    (obj : mapIdCreationObject)
    (h : getMapIdCreationObject submittingUser userExists parentDefaultDifficulties
      techObjects mapObject currentTime modType lengthObjectArray
      customDifficultiesArray defaultDifficultyObjectsArray
      modUsesCustomDifficultiesBool modHasSubDifficultiesBool = .ok obj) :
    ((∃ p ∈ submittingUser.permissionsArray,
        p = "Super_Admin" ∨ p = "Admin" ∨ p = "Map_Moderator") →
      obj.map_details.timeApproved = some currentTime ∧
      obj.map_details.approvedBy = some submittingUser.id) ∧
    (¬(∃ p ∈ submittingUser.permissionsArray,
        p = "Super_Admin" ∨ p = "Admin" ∨ p = "Map_Moderator") →
      obj.map_details.timeApproved = none ∧ obj.map_details.approvedBy = none) := by
  have hmain := getMapIdCreationObject_approval submittingUser userExists
    parentDefaultDifficulties techObjects mapObject currentTime modType lengthObjectArray
    customDifficultiesArray defaultDifficultyObjectsArray
    modUsesCustomDifficultiesBool modHasSubDifficultiesBool obj h
  constructor
  · intro hex
    have hp : privilegedUser submittingUser = true := (privilegedUser_iff _).mpr hex
    rw [hmain.1, hmain.2, if_pos hp, if_pos hp]
    exact ⟨rfl, rfl⟩
  · intro hcon
    have hp : privilegedUser submittingUser = false := by
      cases hq : privilegedUser submittingUser with
      | true => exact absurd ((privilegedUser_iff _).mp hq) hcon
      | false => rfl
    rw [hmain.1, hmain.2, if_neg (by rw [hp]; exact Bool.false_ne_true),
      if_neg (by rw [hp]; exact Bool.false_ne_true)]
    exact ⟨rfl, rfl⟩

/-- A sample submitting user holding the `Map_Moderator` permission (same
shape as the source's hardcoded placeholder, with a nonempty
`permissionsArray`). -/
def sampleSubmitter : submitterUser := {
  id := 5,
  displayName := "steve",
  discordID := "5",
  discordUsername := "steve",
  discordDiscrim := "5555",
  displayDiscord := false,
  timeCreated := 1,
  permissions := "",
  permissionsArray := ["Map_Moderator"],
  accountStatus := "Active" }

/-- A sample map submission for a Normal mod. -/
def sampleMapObject : jsonCreateMapWithMod := {
  name := "m1",
  length := "Short",
  minimumModVersion := "1.0",
  mapRemovedFromModBool := false,
  canonicalDifficulty := some "Easy" }

/-- The map details `getMapIdCreationObject` builds for `sampleSubmitter`
and `sampleMapObject` at time 100. -/
def sampleMapDetails : mapDetailsCreationObject := {
  name := "m1",
  canonicalDifficulty := 1,
  lengthID := 1,
  minimumModVersion := "1.0",
  mapRemovedFromModBool := false,
  timeSubmitted := 100,
  submittedBy := 5,
  timeApproved := some 100,
  approvedBy := some 5 }

/-- Witness for C10: the moderator's submission is auto-approved. -/
theorem c10_privileged_auto_approval_witness :
    ((∃ p ∈ sampleSubmitter.permissionsArray,
        p = "Super_Admin" ∨ p = "Admin" ∨ p = "Map_Moderator") →
      (⟨sampleMapDetails⟩ : mapIdCreationObject).map_details.timeApproved = some 100 ∧
      (⟨sampleMapDetails⟩ : mapIdCreationObject).map_details.approvedBy =
        some sampleSubmitter.id) ∧
    (¬(∃ p ∈ sampleSubmitter.permissionsArray,
        p = "Super_Admin" ∨ p = "Admin" ∨ p = "Map_Moderator") →
      (⟨sampleMapDetails⟩ : mapIdCreationObject).map_details.timeApproved = none ∧
      (⟨sampleMapDetails⟩ : mapIdCreationObject).map_details.approvedBy = none) :=
  c10_privileged_auto_approval sampleSubmitter (fun _ => true) [⟨1, "Easy", 1, none⟩] []
    sampleMapObject 100 "Normal" [⟨1, "Short"⟩] [] [] false false ⟨sampleMapDetails⟩ rfl

end CelesteMods
